import Mathlib

/-!
Verification of the core claims about the `spacebudz/aiken` toolchain
against a shallow embedding of its Rust sources.

Conventions of the embedding:
* Machine integers (`usize`, `isize`, `i128`) are modelled as `Nat`/`Int`
  together with explicit reductions modulo `2 ^ w`; the Rust casts
  `as usize` / `as isize` are the functions `asUnsigned` / `asSigned`,
  and wrapping (release-mode) signed arithmetic is `wrapSigned`.
* Fallible Rust code returns `Except`/`Option`; a Rust panic
  (`unwrap()` on a failed conversion, `todo!()`) is modelled by a
  dedicated result constructor (`none`, `RunResult.panicked`,
  `RawOutcome.panicked`).
* Code of the repository that is not part of the analysed sources
  (external crates such as `pallas` and `num_bigint`, or sibling
  modules like `tx/eval.rs`) enters as explicit parameters or as
  definitions whose doc comment starts with "Modelled from the spec:".
-/

namespace Aiken

/-! ### Machine-integer casts -/

/-- Bit pattern of a signed value at width `w`: the value of the Rust
`as uN` cast, i.e. the representative of `z` modulo `2 ^ w`. -/
def asUnsigned (w : Nat) (z : Int) : Nat := (z % (2 ^ w)).toNat

/-- Two's-complement reading of a `w`-bit pattern: the value of the Rust
`as iN` cast applied to a pattern `n < 2 ^ w`. -/
def asSigned (w : Nat) (n : Nat) : Int :=
  if n < 2 ^ (w - 1) then (n : Int) else (n : Int) - 2 ^ w

/-- Result of a wrapping signed arithmetic operation at width `w`
(Rust release semantics): reduce modulo `2 ^ w`, reinterpret as signed. -/
def wrapSigned (w : Nat) (z : Int) : Int := asSigned w (asUnsigned w z)

theorem asUnsigned_cast (w : Nat) (z : Int) :
    (asUnsigned w z : Int) = z % (2 ^ w) := by
  unfold asUnsigned
  exact Int.toNat_of_nonneg (Int.emod_nonneg z (by positivity))

theorem asUnsigned_lt (w : Nat) (z : Int) : asUnsigned w z < 2 ^ w := by
  have h1 : z % (2 ^ w) < (2 ^ w : Int) :=
    Int.emod_lt_of_pos z (by positivity)
  have h2 : ((asUnsigned w z : Nat) : Int) < ((2 ^ w : Nat) : Int) := by
    rw [asUnsigned_cast]
    exact_mod_cast h1
  exact_mod_cast h2

theorem wrapSigned_emod (w : Nat) (z : Int) :
    (wrapSigned w z) % (2 ^ w) = z % (2 ^ w) := by
  unfold wrapSigned asSigned
  split
  · rw [asUnsigned_cast, Int.emod_emod_of_dvd _ dvd_rfl]
  · rw [Int.sub_emod, Int.emod_self, sub_zero, asUnsigned_cast,
      Int.emod_emod_of_dvd _ dvd_rfl, Int.emod_emod_of_dvd _ dvd_rfl]

theorem asUnsigned_wrapSigned (w : Nat) (z : Int) :
    asUnsigned w (wrapSigned w z) = asUnsigned w z := by
  unfold asUnsigned
  rw [wrapSigned_emod]

theorem asUnsigned_ofNat (w : Nat) (n : Nat) (h : n < 2 ^ w) :
    asUnsigned w (n : Int) = n := by
  unfold asUnsigned
  rw [Int.emod_eq_of_lt (by exact_mod_cast Nat.zero_le n) (by exact_mod_cast h)]
  exact Int.toNat_natCast n

theorem asUnsigned_asSigned (w : Nat) (n : Nat) (h : n < 2 ^ w) :
    asUnsigned w (asSigned w n) = n := by
  unfold asSigned
  split
  · exact asUnsigned_ofNat w n h
  · unfold asUnsigned
    rw [Int.sub_emod, Int.emod_self, sub_zero, Int.emod_emod_of_dvd _ dvd_rfl,
      Int.emod_eq_of_lt (by exact_mod_cast Nat.zero_le n) (by exact_mod_cast h)]
    exact Int.toNat_natCast n

/-- Bitwise complement below `2 ^ n`: xor with the all-ones pattern is
subtraction from it. -/
theorem xor_allOnes : ∀ (n a : Nat), a < 2 ^ n → a ^^^ (2 ^ n - 1) = 2 ^ n - 1 - a := by
  intro n
  induction n with
  | zero =>
    intro a ha
    have : a = 0 := by omega
    subst this
    decide
  | succ n ih =>
    intro a ha
    have hx : (a ^^^ (2 ^ (n + 1) - 1)) / 2 = (a / 2) ^^^ ((2 ^ (n + 1) - 1) / 2) :=
      Nat.xor_div_two ..
    have h2p : (1 : Nat) ≤ 2 ^ n := Nat.one_le_two_pow
    have hpow : 2 ^ (n + 1) = 2 * 2 ^ n := by ring
    have hones : (2 ^ (n + 1) - 1) / 2 = 2 ^ n - 1 := by omega
    have hones2 : (2 ^ (n + 1) - 1) % 2 = 1 := by omega
    have hm : (a ^^^ (2 ^ (n + 1) - 1)) % 2 = 1 - a % 2 := by
      have h1 := Nat.testBit_xor a (2 ^ (n + 1) - 1) 0
      simp only [Nat.testBit_zero] at h1
      rcases Nat.mod_two_eq_zero_or_one a with hx2 | hx2 <;>
        simp [hx2, hones2] at h1 ⊢ <;> omega
    have hlt : a / 2 < 2 ^ n := by omega
    have hrec := ih (a / 2) hlt
    rw [hones, hrec] at hx
    have hdm2 := Nat.div_add_mod (a ^^^ (2 ^ (n + 1) - 1)) 2
    omega

/-! ### Flat codec: zig-zag (crates/flat/src/zigzag.rs) -/

/-- Embeds `to_usize` (zigzag.rs lines 4-12):
`let double_x = x << 1; if x.is_positive() || x == 0 { double_x as usize }
else { (-double_x - 1) as usize }`.
The shift discards the top bit, negation and subtraction wrap. -/
def to_usize (x : Int) : Nat :=
  let double_x := wrapSigned 64 (2 * x)
  if 0 < x ∨ x = 0 then asUnsigned 64 double_x
  else
    let neg_double := wrapSigned 64 (-double_x)
    asUnsigned 64 (wrapSigned 64 (neg_double - 1))

/-- Embeds `to_isize` (zigzag.rs lines 14-16):
`((u >> 1) as isize) ^ (-((u & 1) as isize))`.
The xor of two isize values acts on their 64-bit two's-complement patterns. -/
def to_isize (u : Nat) : Int :=
  let a : Int := asSigned 64 (u >>> 1)
  let b : Int := wrapSigned 64 (-((u &&& 1 : Nat) : Int))
  asSigned 64 (asUnsigned 64 a ^^^ asUnsigned 64 b)

theorem to_usize_eq_nonneg (x : Int) (h0 : 0 ≤ x) (h2 : x < 2 ^ 63) :
    to_usize x = (2 * x).toNat := by
  unfold to_usize
  rw [if_pos (by omega)]
  rw [asUnsigned_wrapSigned]
  unfold asUnsigned
  have hp : (2 : Int) ^ 64 = 18446744073709551616 := by norm_num
  have hq : (2 : Int) ^ 63 = 9223372036854775808 := by norm_num
  rw [hp]
  rw [hq] at h2
  rw [Int.emod_eq_of_lt (by omega) (by omega)]

theorem to_usize_eq_neg (x : Int) (h0 : x < 0) (h1 : -(2 ^ 63) ≤ x) :
    to_usize x = (-2 * x - 1).toNat := by
  unfold to_usize
  rw [if_neg (by omega)]
  have e1 : Int.ModEq (2 ^ 64) (wrapSigned 64 (2 * x)) (2 * x) := wrapSigned_emod 64 (2 * x)
  have e2 : Int.ModEq (2 ^ 64) (wrapSigned 64 (-(wrapSigned 64 (2 * x)))) (-(2 * x)) :=
    (wrapSigned_emod 64 _).trans e1.neg
  have hmod : (wrapSigned 64 (wrapSigned 64 (-(wrapSigned 64 (2 * x))) - 1)) % ((2 : Int) ^ 64)
      = (-(2 * x) - 1) % (2 ^ 64) :=
    (wrapSigned_emod 64 _).trans (e2.sub_right 1)
  show asUnsigned 64 (wrapSigned 64 (wrapSigned 64 (-(wrapSigned 64 (2 * x))) - 1)) = (-2 * x - 1).toNat
  unfold asUnsigned
  rw [hmod]
  have hp : (2 : Int) ^ 64 = 18446744073709551616 := by norm_num
  have hq : (2 : Int) ^ 63 = 9223372036854775808 := by norm_num
  rw [hp]
  rw [hq] at h1
  rw [Int.emod_eq_of_lt (by omega) (by omega)]
  congr 1
  omega

theorem to_isize_to_usize (x : Int) (h1 : -(2 ^ 63) ≤ x) (h2 : x < 2 ^ 63) :
    to_isize (to_usize x) = x := by
  rcases le_or_lt 0 x with hx | hx
  · rw [to_usize_eq_nonneg x hx h2]
    unfold to_isize
    have hu : (2 * x).toNat = 2 * x.toNat := by omega
    rw [hu, Nat.shiftRight_one, Nat.and_one_is_mod]
    have hsh : 2 * x.toNat / 2 = x.toNat := by omega
    have hm : 2 * x.toNat % 2 = 0 := by omega
    rw [hsh, hm]
    have hb : wrapSigned 64 (-((0 : Nat) : Int)) = 0 := by
      norm_num [wrapSigned, asUnsigned, asSigned]
    rw [hb]
    have hxlt : x.toNat < 2 ^ 64 := by
      have : (2 : Int) ^ 63 = 9223372036854775808 := by norm_num
      omega
    have ha : asSigned 64 (x.toNat) = (x.toNat : Int) := by
      unfold asSigned
      rw [if_pos]
      have : (2 : Int) ^ 63 = 9223372036854775808 := by norm_num
      omega
    rw [ha]
    have hround : asUnsigned 64 ((x.toNat : Int)) = x.toNat := asUnsigned_ofNat 64 x.toNat hxlt
    have h0 : asUnsigned 64 (0 : Int) = 0 := by norm_num [asUnsigned]
    show asSigned 64 (asUnsigned 64 ((x.toNat : Int)) ^^^ asUnsigned 64 (0 : Int)) = x
    rw [hround, h0, Nat.xor_zero]
    unfold asSigned
    rw [if_pos]
    · omega
    · have : (2 : Int) ^ 63 = 9223372036854775808 := by norm_num
      omega
  · rw [to_usize_eq_neg x hx h1]
    unfold to_isize
    have hu : (-2 * x - 1).toNat = 2 * (-x - 1).toNat + 1 := by omega
    rw [hu, Nat.shiftRight_one, Nat.and_one_is_mod]
    have hmlt : (-x - 1).toNat < 2 ^ 63 := by
      have : (2 : Int) ^ 63 = 9223372036854775808 := by norm_num
      omega
    have hsh : (2 * (-x - 1).toNat + 1) / 2 = (-x - 1).toNat := by omega
    have hm : (2 * (-x - 1).toNat + 1) % 2 = 1 := by omega
    rw [hsh, hm]
    have hb : wrapSigned 64 (-((1 : Nat) : Int)) = -1 := by
      norm_num [wrapSigned, asUnsigned, asSigned]
    rw [hb]
    have ha : asSigned 64 ((-x - 1).toNat) = ((-x - 1).toNat : Int) := by
      unfold asSigned
      rw [if_pos]
      omega
    rw [ha]
    have hround : asUnsigned 64 (((-x - 1).toNat : Int)) = (-x - 1).toNat :=
      asUnsigned_ofNat 64 _ (by omega)
    have hneg1 : asUnsigned 64 (-1 : Int) = 2 ^ 64 - 1 := by
      unfold asUnsigned
      norm_num
      rfl
    show asSigned 64 (asUnsigned 64 (((-x - 1).toNat : Int)) ^^^ asUnsigned 64 (-1 : Int)) = x
    rw [hround, hneg1, xor_allOnes 64 _ (by omega)]
    unfold asSigned
    rw [if_neg (by omega)]
    have hle : (-x - 1).toNat ≤ 2 ^ 64 - 1 := by omega
    omega

/-- C7: the zig-zag word codec is correct and invertible on machine words.
For every isize `x`, `to_usize x` is the zig-zag value of `x`
(`2 * x` for `x ≥ 0`, `-2 * x - 1` for `x < 0`), and
`to_isize (to_usize x) = x`. -/
theorem zigzag_word_codec_correct (x : Int) (h1 : -(2 ^ 63) ≤ x) (h2 : x < 2 ^ 63) :
    ((to_usize x : Int) = if 0 ≤ x then 2 * x else -2 * x - 1) ∧
    to_isize (to_usize x) = x := by
  constructor
  · rcases le_or_lt 0 x with hx | hx
    · rw [if_pos hx, to_usize_eq_nonneg x hx h2]
      omega
    · rw [if_neg (by omega), to_usize_eq_neg x hx h1]
      omega
  · exact to_isize_to_usize x h1 h2

/-- Witness for C7 at the concrete input `x = -3`. -/
theorem zigzag_word_codec_correct_witness :
    ((to_usize (-3) : Int) = if 0 ≤ (-3 : Int) then 2 * (-3) else -2 * (-3) - 1) ∧
    to_isize (to_usize (-3)) = -3 :=
  zigzag_word_codec_correct (-3) (by norm_num) (by norm_num)

/-! ### Flat codec: big-integer zig-zag decode (zigzag.rs lines 18-22) -/

/-- Embeds num_bigint's `ToPrimitive::to_i128` (external crate): `some`
exactly when the value fits a signed 128-bit integer. -/
def to_i128 (b : Int) : Option Int :=
  if -(2 ^ 127) ≤ b ∧ b < 2 ^ 127 then some b else none

/-- Arithmetic shift right by one on a signed machine integer (Rust
`>> 1` on `i128`) equals flooring division by two. -/
def sar1 (v : Int) : Int := Int.fdiv v 2

/-- Bitwise `& 1` on a two's-complement integer is its low bit. -/
def lowBit (v : Int) : Int := v % 2

/-- Bitwise xor of two i128 values, acting on their 128-bit
two's-complement patterns. -/
def i128Xor (a b : Int) : Int := asSigned 128 (asUnsigned 128 a ^^^ asUnsigned 128 b)

/-- Embeds `to_bigint` (zigzag.rs lines 18-22):
`((b.to_i128().unwrap() >> 1) ^ (-(b.to_i128().unwrap() & 1))).to_bigint().unwrap()`.
The source converts the arbitrary-precision input to `i128` twice and
unwraps each time; a failed conversion panics, modelled as `none`. The
negation of `b & 1` (zero or one) cannot overflow, and the final
`.to_bigint().unwrap()` on an `i128` never fails. -/
def to_bigint (b : Int) : Option Int :=
  match to_i128 b, to_i128 b with
  | some v1, some v2 => some (i128Xor (sar1 v1) (-(lowBit v2)))
  | _, _ => none

theorem wrapSigned_eq_self_128 (z : Int) (h1 : -(2 ^ 127) ≤ z) (h2 : z < 2 ^ 127) :
    wrapSigned 128 z = z := by
  unfold wrapSigned asUnsigned asSigned
  have hp : (2 : Int) ^ 128 = 340282366920938463463374607431768211456 := by norm_num
  have hq : (2 : Nat) ^ (128 - 1) = 170141183460469231731687303715884105728 := by norm_num
  have hq2 : (2 : Int) ^ 127 = 170141183460469231731687303715884105728 := by norm_num
  rw [hp, hq]
  rw [hq2] at h1 h2
  split <;> omega

theorem i128Xor_neg_one (v : Int) (h1 : -(2 ^ 127) ≤ v) (h2 : v < 2 ^ 127) :
    i128Xor v (-1) = -v - 1 := by
  unfold i128Xor
  have hneg1 : asUnsigned 128 (-1 : Int) = 2 ^ 128 - 1 := by
    unfold asUnsigned
    norm_num
    rfl
  rw [hneg1, xor_allOnes 128 _ (asUnsigned_lt 128 v)]
  have ht : (asUnsigned 128 v : Int) = v % (2 ^ 128) := asUnsigned_cast 128 v
  have htlt : asUnsigned 128 v < 2 ^ 128 := asUnsigned_lt 128 v
  unfold asSigned
  have hp : (2 : Int) ^ 128 = 340282366920938463463374607431768211456 := by norm_num
  have hpn : (2 : Nat) ^ 128 = 340282366920938463463374607431768211456 := by norm_num
  have hqn : (2 : Nat) ^ (128 - 1) = 170141183460469231731687303715884105728 := by norm_num
  have hq2 : (2 : Int) ^ 127 = 170141183460469231731687303715884105728 := by norm_num
  rw [hp] at ht
  rw [hpn] at htlt
  rw [hq2] at h1 h2
  rw [hpn, hqn, hp]
  split <;> omega

/-- Supporting fact: on inputs that do fit an `i128`, `to_bigint`
returns the zig-zag-decoded value (`b / 2` for even `b`,
`-(b + 1) / 2` for odd `b`; both divisions are exact). -/
theorem to_bigint_in_range (b : Int) (h1 : -(2 ^ 127) ≤ b) (h2 : b < 2 ^ 127) :
    to_bigint b = some (if b % 2 = 0 then b / 2 else -(b + 1) / 2) := by
  unfold to_bigint
  have hsome : to_i128 b = some b := by
    unfold to_i128
    rw [if_pos ⟨h1, h2⟩]
  rw [hsome]
  show some (i128Xor (sar1 b) (-(lowBit b))) = _
  congr 1
  have hchar : 2 * sar1 b + b % 2 = b := by
    have hf := Int.fdiv_add_fmod b 2
    have hm : Int.fmod b 2 = b % 2 := by
      rw [Int.fmod_eq_emod]
      norm_num
    unfold sar1
    omega
  have hmod2 : b % 2 = 0 ∨ b % 2 = 1 := by omega
  have hq2 : (2 : Int) ^ 127 = 170141183460469231731687303715884105728 := by norm_num
  have hs1 : -(2 ^ 127) ≤ sar1 b := by
    rw [hq2]
    rw [hq2] at h1
    omega
  have hs2 : sar1 b < 2 ^ 127 := by
    rw [hq2]
    rw [hq2] at h2
    omega
  rcases hmod2 with hm0 | hm1
  · have hlow : lowBit b = 0 := hm0
    rw [hlow, neg_zero]
    unfold i128Xor
    have h0 : asUnsigned 128 (0 : Int) = 0 := by norm_num [asUnsigned]
    rw [h0, Nat.xor_zero]
    have hw := wrapSigned_eq_self_128 (sar1 b) hs1 hs2
    unfold wrapSigned at hw
    rw [hw, if_pos hm0]
    omega
  · have hlow : lowBit b = 1 := hm1
    rw [hlow]
    rw [show (-(1 : Int)) = (-1 : Int) from rfl]
    rw [i128Xor_neg_one (sar1 b) hs1 hs2, if_neg (by omega)]
    omega

/-- C2 (code bug): `to_bigint` is not total over arbitrary-precision
integers. It converts its argument to `i128` and unwraps, so a value
outside the `i128` range (here `2 ^ 127`) panics (`none`) instead of
producing the zig-zag-decoded value `2 ^ 126`. -/
theorem to_bigint_panics_outside_i128 : to_bigint (2 ^ 127) = none := by
  have h : to_i128 (2 ^ 127) = none := by
    unfold to_i128
    rw [if_neg]
    norm_num
  unfold to_bigint
  rw [h]

/-! ### Flat decoder instances (crates/flat/src/decode.rs) -/

/-- Modelled from the spec: the flat codec error kinds (§7 CodecError);
`crates/flat/src/decode/error.rs` is not among the analysed sources. -/
inductive CodecError where
  | bufferNotByteAligned
  | endOfBuffer
  | unknownTermTag (t : Nat)
  | unknownConstTag (t : Nat)
  | integerOverflow
deriving DecidableEq

/-- Modelled from the spec: the decoder primitive `word`
(`crates/flat/src/decode/decoder.rs` is not among the analysed sources):
"variable-length unsigned — 7 payload bits per byte, high bit =
continuation" (§4.2), unbounded because core integers are
arbitrary-precision. The stream is a list of bytes; the first byte
carries the least-significant payload bits; an exhausted stream is
EndOfBuffer. -/
def word : List Nat → Except CodecError (Nat × List Nat)
  | [] => Except.error CodecError.endOfBuffer
  | b :: rest =>
    if b < 128 then Except.ok (b, rest)
    else
      match word rest with
      | Except.error e => Except.error e
      | Except.ok (w, r) => Except.ok ((b - 128) + 128 * w, r)

/-- Modelled from the spec: the decoder primitive `integer`, the
zig-zag-decoded `word` (§4.2). -/
def integer (s : List Nat) : Except CodecError (Int × List Nat) :=
  match word s with
  | Except.error e => Except.error e
  | Except.ok (w, r) =>
    Except.ok (if w % 2 = 0 then ((w / 2 : Nat) : Int) else -((w / 2 : Nat) : Int) - 1, r)

/-- Embeds num_traits `ToPrimitive::to_usize` on a big integer
(external crate): `some` exactly when the value fits a 64-bit word. -/
def bigint_to_usize (w : Nat) : Option Nat := if w < 2 ^ 64 then some w else none

/-- Embeds num_traits `ToPrimitive::to_isize` on a big integer
(external crate): `some` exactly when the value fits a signed 64-bit
word. -/
def bigint_to_isize (z : Int) : Option Int :=
  if -(2 ^ 63) ≤ z ∧ z < 2 ^ 63 then some z else none

/-- Outcome of running code that may panic. -/
inductive RunResult (ε α : Type) where
  | panicked
  | failed (e : ε)
  | ok (a : α)
deriving DecidableEq

/-- Embeds `impl Decode for usize` (decode.rs lines 46-50):
`d.word().map(|b| b.to_usize().unwrap())`. The `unwrap` of a failed
conversion panics. -/
def decode_usize (s : List Nat) : RunResult CodecError (Nat × List Nat) :=
  match word s with
  | Except.error e => RunResult.failed e
  | Except.ok (w, r) =>
    match bigint_to_usize w with
    | none => RunResult.panicked
    | some v => RunResult.ok (v, r)

/-- Embeds `impl Decode for isize` (decode.rs lines 34-38):
`d.integer().map(|b| b.to_isize().unwrap())`. -/
def decode_isize (s : List Nat) : RunResult CodecError (Int × List Nat) :=
  match integer s with
  | Except.error e => RunResult.failed e
  | Except.ok (z, r) =>
    match bigint_to_isize z with
    | none => RunResult.panicked
    | some v => RunResult.ok (v, r)

/-- C3 (code bug): decoding a machine word can panic. On the ten-byte
stream encoding the word `2 ^ 64` (nine continuation bytes `128` then a
final `2`), `decode_usize` panics in `to_usize().unwrap()` instead of
returning the `IntegerOverflow` codec error, and `decode_isize`
(decoded integer `2 ^ 63`) panics in `to_isize().unwrap()`. -/
theorem decode_word_panics_on_overflow :
    decode_usize [128, 128, 128, 128, 128, 128, 128, 128, 128, 2] = RunResult.panicked ∧
    decode_isize [128, 128, 128, 128, 128, 128, 128, 128, 128, 2] = RunResult.panicked := by
  constructor <;> decide

/-! ### UPLC AST (crates/uplc/src/ast.rs) -/

/-- Embeds pallas `PlutusData` (external crate; shape from spec §3
Data): `Constr(tag, [Data]) | Map([(Data,Data)]) | List([Data]) |
Int(bigint) | Bytes(bytes)`. -/
inductive PlutusData where
  | constr (tag : Nat) (fields : List PlutusData)
  | map (pairs : List (PlutusData × PlutusData))
  | list (items : List PlutusData)
  | int (i : Int)
  | bytes (bs : List Nat)

/-- Embeds `DefaultFunction` (crates/uplc/src/builtins.rs, not among
the analysed sources): a closed enum of builtin tags; only the tag is
relevant here. -/
structure DefaultFunction where
  tag : Nat

/-- Embeds `Type` (ast.rs lines 252-261). -/
inductive UplcType where
  | bool
  | integer
  | string
  | byteString
  | unit
  | list (t : UplcType)
  | pair (a b : UplcType)
  | data

/-- Embeds `Constant` (ast.rs lines 230-249). -/
inductive Constant where
  | integer (i : Int)
  | byteString (bs : List Nat)
  | string (s : String)
  | unit
  | bool (b : Bool)
  | protoList (t : UplcType) (xs : List Constant)
  | protoPair (a b : UplcType) (x y : Constant)
  | data (d : PlutusData)

/-- Embeds `Term<T>` (ast.rs lines 179-202), generic in the name type
`T` exactly as the source is. -/
inductive Term (T : Type) where
  | var (name : T)
  | delay (t : Term T)
  | lambda (parameterName : T) (body : Term T)
  | apply (function argument : Term T)
  | constant (c : Constant)
  | force (t : Term T)
  | error
  | builtin (f : DefaultFunction)

/-- Embeds `Unique` (ast.rs line 302): a wrapped isize id. -/
structure Unique where
  val : Int
deriving DecidableEq

/-- Embeds `Name` (ast.rs lines 282-285). -/
structure Name where
  text : String
  unique : Unique

/-- Embeds `impl PartialEq for Name` (ast.rs lines 294-298):
`self.unique == other.unique`. -/
def nameEq (a b : Name) : Bool := a.unique == b.unique

/-- Embeds `DeBruijn` (ast.rs line 382): a wrapped usize index. -/
structure DeBruijn where
  inner : Nat
deriving DecidableEq

/-- Embeds `NamedDeBruijn` (ast.rs lines 339-342). -/
structure NamedDeBruijn where
  text : String
  index : DeBruijn

/-- Embeds `impl PartialEq for NamedDeBruijn` (ast.rs lines 344-348):
`self.index == other.index`. -/
def namedDeBruijnEq (a b : NamedDeBruijn) : Bool := a.index == b.index

/-- Data written to a hasher, one token per `hash` call on a field. -/
inductive HashToken where
  | strTok (s : String)
  | intTok (i : Int)
deriving DecidableEq

/-- Embeds `impl Hash for Name` (ast.rs lines 287-292): the hasher
state receives `text` and then `unique`; modelled as the stream of
tokens written to the hasher. -/
def nameHashStream (n : Name) : List HashToken :=
  [HashToken.strTok n.text, HashToken.intTok n.unique.val]

/-- Embeds `Term::is_valid_script_result` (ast.rs lines 676-680):
`!matches!(self, Term::Error)`. -/
def is_valid_script_result (t : Term NamedDeBruijn) : Bool :=
  !(match t with
    | Term.error => true
    | _ => false)

/-- Embeds the success classification inside `Project::eval_scripts`
(crates/aiken-project/src/lib.rs lines 676-678):
`result != Term::Error && result != Term::Constant(Constant::Bool(false).into())`. -/
def eval_scripts_success (result : Term NamedDeBruijn) : Prop :=
  result ≠ Term.error ∧ result ≠ Term.constant (Constant.bool false)

/-- C8: `Name` values compare equal exactly when their unique ids are
equal, and `NamedDeBruijn` values compare equal exactly when their
indices are equal; the texts do not participate in either comparison. -/
theorem name_equality_ignores_text :
    (∀ a b : Name, nameEq a b = true ↔ a.unique = b.unique) ∧
    (∀ a b : NamedDeBruijn, namedDeBruijnEq a b = true ↔ a.index = b.index) := by
  constructor <;> intro a b <;> simp [nameEq, namedDeBruijnEq]

/-- C10: hashing a `Name` feeds both its text and its unique id to the
hasher, while equality compares only the unique id; hence two names
that compare equal (same unique, different text) write different data
to the hasher. -/
theorem name_hash_distinguishes_equal_names :
    (∀ n : Name, nameHashStream n = [HashToken.strTok n.text, HashToken.intTok n.unique.val]) ∧
    ∃ a b : Name, nameEq a b = true ∧ nameHashStream a ≠ nameHashStream b := by
  refine ⟨fun n => rfl, ⟨⟨"x", ⟨0⟩⟩, ⟨"y", ⟨0⟩⟩, ?_, ?_⟩⟩
  · decide
  · decide

/-- C1 counterexample: `Term::is_valid_script_result`, the result
interpretation used for phase-two evaluation, classifies the constant
`Bool false` as a VALID script result, contradicting the claim that the
driver's interpretation treats exactly `Error` and `Bool false` as
failures. -/
theorem is_valid_script_result_accepts_bool_false :
    is_valid_script_result (Term.constant (Constant.bool false)) = true := rfl

/-- C1 (amended): the test driver `Project::eval_scripts` classifies a
returned term as failure exactly when it is `Error` or the constant
`Bool false`; `Term::is_valid_script_result` instead rejects exactly
the `Error` term, so the constant `Bool false` counts as valid there. -/
theorem script_result_classification :
    (∀ r : Term NamedDeBruijn,
      ¬ eval_scripts_success r ↔ (r = Term.error ∨ r = Term.constant (Constant.bool false))) ∧
    (∀ r : Term NamedDeBruijn, is_valid_script_result r = false ↔ r = Term.error) := by
  constructor
  · intro r
    unfold eval_scripts_success
    constructor
    · intro h
      by_cases h1 : r = Term.error
      · exact Or.inl h1
      · by_cases h2 : r = Term.constant (Constant.bool false)
        · exact Or.inr h2
        · exact absurd ⟨h1, h2⟩ h
    · rintro (h | h) hc
      · exact hc.1 h
      · exact hc.2 h
  · intro r
    cases r <;> simp [is_valid_script_result]

/-! ### Phase-two driver (crates/uplc/src/tx.rs) -/

/-- Embeds the skeleton of pallas `Redeemer` (external crate): a
purpose tag, an index, the redeemer datum, and the reported ex-units
(memory, steps). -/
structure Redeemer where
  tag : Nat
  index : Nat
  dat : PlutusData
  exUnits : Nat × Nat

/-- Embeds the redeemer loop of `eval_phase_two` (tx.rs lines 47-61):
evaluate each redeemer in witness-set order, return the first error
immediately, otherwise collect the results in order. -/
def runRedeemers {E : Type} (f : Redeemer → Except E Redeemer) :
    List Redeemer → Except E (List Redeemer)
  | [] => Except.ok []
  | r :: rs =>
    match f r with
    | Except.error e => Except.error e
    | Except.ok r2 =>
      match runRedeemers f rs with
      | Except.error e => Except.error e
      | Except.ok out => Except.ok (r2 :: out)

/-- Embeds `eval_phase_two` (tx.rs lines 28-67). Parts of the
repository outside the analysed sources enter as parameters: `phaseOne`
is the result of `eval_phase_one` (tx/phase_one.rs) and `evalRedeemer`
is `eval::eval_redeemer` (tx/eval.rs) with the transaction, utxos, slot
config, lookup table, cost models and initial budget already supplied.
`redeemers` is `tx.transaction_witness_set.redeemer`. -/
def eval_phase_two {E : Type} (phaseOne : Except E Unit)
    (evalRedeemer : Redeemer → Except E Redeemer)
    (redeemers : Option (List Redeemer)) (runPhaseOne : Bool) :
    Except E (List Redeemer) :=
  match (if runPhaseOne then phaseOne else Except.ok ()) with
  | Except.error e => Except.error e
  | Except.ok _ =>
    match redeemers with
    | some rs => runRedeemers evalRedeemer rs
    | none => Except.ok []

/-- Modelled from the spec: `eval_redeemer` (tx/eval.rs, not among the
analysed sources). Locating script and datum, building the script
context and running the machine are abstracted into `run`, which
returns the consumed budget; "The consumed budget is written back into
the redeemer as its ex-units" (§4.6). -/
def eval_redeemer {E : Type} (run : Redeemer → Except E (Nat × Nat)) (r : Redeemer) :
    Except E Redeemer :=
  match run r with
  | Except.error e => Except.error e
  | Except.ok u => Except.ok { r with exUnits := u }

theorem runRedeemers_fail_fast {E : Type} (f g : Redeemer → Except E Redeemer)
    (pre post : List Redeemer) (r : Redeemer) (e : E)
    (hpre : ∀ x ∈ pre, ∃ b, f x = Except.ok b)
    (hr : f r = Except.error e)
    (hg : ∀ x ∈ pre, g x = f x) (hgr : g r = f r) :
    runRedeemers g (pre ++ r :: post) = Except.error e := by
  induction pre with
  | nil =>
    rw [List.nil_append]
    unfold runRedeemers
    rw [hgr, hr]
  | cons x xs ih =>
    obtain ⟨b, hb⟩ := hpre x (by simp)
    have hgx : g x = Except.ok b := by rw [hg x (by simp), hb]
    rw [List.cons_append]
    unfold runRedeemers
    rw [hgx]
    have ih2 := ih (fun y hy => hpre y (List.mem_cons_of_mem x hy))
      (fun y hy => hg y (List.mem_cons_of_mem x hy))
    rw [ih2]

/-- C4: `eval_phase_two` fails fast. If the redeemers in the witness
set are `pre ++ r :: post` where every redeemer in `pre` evaluates
successfully and `r` evaluates to an error `e`, then the result is
exactly that error; moreover the result is the same for ANY evaluator
`g` that agrees with the real one on `pre` and `r`, so no redeemer
after `r` is ever evaluated. -/
theorem eval_phase_two_fail_fast {E : Type} (phaseOne : Except E Unit)
    (f g : Redeemer → Except E Redeemer) (pre post : List Redeemer) (r : Redeemer) (e : E)
    (runPhaseOne : Bool)
    (hph : runPhaseOne = false ∨ phaseOne = Except.ok ())
    (hpre : ∀ x ∈ pre, ∃ b, f x = Except.ok b)
    (hr : f r = Except.error e)
    (hg : ∀ x ∈ pre, g x = f x) (hgr : g r = f r) :
    eval_phase_two phaseOne g (some (pre ++ r :: post)) runPhaseOne = Except.error e := by
  unfold eval_phase_two
  have hph2 : (if runPhaseOne then phaseOne else Except.ok ()) = Except.ok () := by
    rcases hph with h | h
    · rw [h]
      rfl
    · split
      · exact h
      · rfl
  rw [hph2]
  exact runRedeemers_fail_fast f g pre post r e hpre hr hg hgr

/-- Sample redeemer used in concrete instantiations. -/
def sampleRedeemer (i : Nat) : Redeemer :=
  { tag := 0, index := i, dat := PlutusData.int 0, exUnits := (0, 0) }

/-- Witness for C4: two redeemers, the first fails with error `7`; the
run returns error `7` even though the instantiated evaluator would
succeed on the second redeemer. -/
theorem eval_phase_two_fail_fast_witness :
    eval_phase_two (Except.ok ())
      (fun x => if x.index = 1 then Except.ok x else Except.error 7)
      (some ([] ++ sampleRedeemer 0 :: [sampleRedeemer 1])) false = Except.error 7 :=
  eval_phase_two_fail_fast (Except.ok ()) (fun _ => Except.error 7)
    (fun x => if x.index = 1 then Except.ok x else Except.error 7)
    [] [sampleRedeemer 1] (sampleRedeemer 0) 7 false (Or.inl rfl)
    (by intro x hx; simp at hx) rfl
    (by intro x hx; simp at hx) rfl

theorem runRedeemers_map {E : Type} (f : Redeemer → Except E Redeemer)
    (m : Redeemer → Redeemer) (hf : ∀ x, f x = Except.ok (m x)) :
    ∀ rs : List Redeemer, runRedeemers f rs = Except.ok (rs.map m) := by
  intro rs
  induction rs with
  | nil => rfl
  | cons x xs ih =>
    unfold runRedeemers
    rw [hf x, ih, List.map_cons]

/-- C5: on success, `eval_phase_two` returns exactly one result per
redeemer of the witness set, in the same order, each being the input
redeemer with its ex-units replaced by the consumed budget reported by
the machine run; and with no redeemers in the witness set it returns
`Ok []`. -/
theorem eval_phase_two_success_shape {E : Type} (phaseOne : Except E Unit)
    (run : Redeemer → Except E (Nat × Nat)) (u : Redeemer → Nat × Nat)
    (runPhaseOne : Bool) (rs out : List Redeemer)
    (hrun : ∀ x, run x = Except.ok (u x))
    (h : eval_phase_two phaseOne (eval_redeemer run) (some rs) runPhaseOne = Except.ok out) :
    out = rs.map (fun x => { x with exUnits := u x }) ∧
    eval_phase_two phaseOne (eval_redeemer run) none runPhaseOne = Except.ok [] := by
  have hf : ∀ x, eval_redeemer run x = Except.ok { x with exUnits := u x } := by
    intro x
    unfold eval_redeemer
    rw [hrun x]
  unfold eval_phase_two at h ⊢
  cases hph : (if runPhaseOne then phaseOne else Except.ok ()) with
  | error e =>
    rw [hph] at h
    have h2 : (Except.error e : Except E (List Redeemer)) = Except.ok out := h
    exact Except.noConfusion h2
  | ok u0 =>
    rw [hph] at h
    have h2 : runRedeemers (eval_redeemer run) rs = Except.ok out := h
    rw [runRedeemers_map (eval_redeemer run) (fun x => { x with exUnits := u x }) hf rs] at h2
    exact ⟨(Except.ok.inj h2).symm, rfl⟩

/-- Witness for C5: a single redeemer whose evaluation consumes budget
`(3, 4)`; the output is that redeemer with its ex-units set to
`(3, 4)`, and the empty witness set gives `Ok []`. -/
theorem eval_phase_two_success_shape_witness :
    ([{ sampleRedeemer 0 with exUnits := (3, 4) }] : List Redeemer)
      = ([sampleRedeemer 0] : List Redeemer).map (fun x => { x with exUnits := (fun _ => (3, 4) : Redeemer → Nat × Nat) x }) ∧
    eval_phase_two (Except.ok (() : Unit) : Except Nat Unit)
      (eval_redeemer fun _ => Except.ok (3, 4)) none false = Except.ok [] :=
  eval_phase_two_success_shape (Except.ok ()) (fun _ => Except.ok (3, 4))
    (fun _ => (3, 4)) false [sampleRedeemer 0]
    [{ sampleRedeemer 0 with exUnits := (3, 4) }] (fun _ => rfl) rfl

/-- Embeds pallas `MultiEraTx` (external crate), restricted to what
tx.rs inspects: the Babbage variant carries the witness-set redeemers;
any other era reaches the `todo!` arm. -/
inductive MultiEraTx where
  | babbage (redeemers : Option (List Redeemer))
  | alonzoCompatible
  | byron

/-- Outcome of a wasm-exposed call: a panic (failed `unwrap` or
`todo!`), a structured JsError, or a value. -/
inductive RawOutcome (α : Type) where
  | panicked
  | jsError (msg : String)
  | ok (a : α)

/-- Embeds `eval_phase_two_raw` (tx.rs lines 127-190). The external
pallas/minicbor decoders enter as their results: `decodeBabbage` and
`decodeAlonzo` for `MultiEraTx::decode` in each era, `decodeCostMdls`
for `CostMdls::decode_fragment`, and `decodeUtxos` for the
input/output `decode_fragment` pair of each raw utxo; `encodeRedeemer`
is `encode_fragment`, `errString` is the error's `to_string`. Each
`unwrap` of a failed decode and the non-Babbage `todo!` arm panic. -/
def eval_phase_two_raw {E : Type}
    (decodeBabbage decodeAlonzo : Option MultiEraTx)
    (decodeCostMdls : Option (List Nat))
    (decodeUtxos : List (Option Nat × Option Nat))
    (phaseOne : Except E Unit)
    (run : Redeemer → Except E (Nat × Nat))
    (runPhaseOne : Bool)
    (errString : E → String)
    (encodeRedeemer : Redeemer → Option (List Nat)) :
    RawOutcome (List (List Nat)) :=
  match decodeBabbage.orElse (fun _ => decodeAlonzo) with
  | none => RawOutcome.panicked
  | some tx =>
    match decodeCostMdls with
    | none => RawOutcome.panicked
    | some _ =>
      if decodeUtxos.any (fun p => p.1.isNone || p.2.isNone) then RawOutcome.panicked
      else
        match tx with
        | MultiEraTx.babbage rs =>
          match eval_phase_two phaseOne (eval_redeemer run) rs runPhaseOne with
          | Except.ok redeemers =>
            if redeemers.any (fun r2 => (encodeRedeemer r2).isNone) then RawOutcome.panicked
            else RawOutcome.ok (redeemers.filterMap encodeRedeemer)
          | Except.error e => RawOutcome.jsError (errString e)
        | _ => RawOutcome.panicked

/-- C6 (code bug): `eval_phase_two_raw` panics rather than returning a
structured error value when the transaction bytes decode in neither
era (the `.or_else(..).unwrap()`), and an Alonzo-era transaction
panics in the `todo!` arm; only script-evaluation errors become
structured errors. -/
theorem eval_phase_two_raw_panics_on_bad_tx :
    eval_phase_two_raw none none (some []) []
      (Except.ok (() : Unit) : Except Nat Unit) (fun _ => Except.ok (0, 0)) false
      (fun _ => "") (fun _ => some []) = RawOutcome.panicked ∧
    eval_phase_two_raw none (some MultiEraTx.alonzoCompatible) (some []) []
      (Except.ok (() : Unit) : Except Nat Unit) (fun _ => Except.ok (0, 0)) false
      (fun _ => "") (fun _ => some []) = RawOutcome.panicked :=
  ⟨rfl, rfl⟩

/-! ### Script addresses (crates/aiken-project/src/lib.rs and ast.rs) -/

/-- Embeds pallas `Network` (external crate). -/
inductive Network where
  | testnet
  | mainnet
  | other (tag : Nat)
deriving DecidableEq

/-- Embeds pallas `ShelleyPaymentPart` (external crate); 28-byte hashes
are modelled as naturals. -/
inductive ShelleyPaymentPart where
  | keyHash (h : Nat)
  | script (h : Nat)
deriving DecidableEq

/-- Embeds pallas `ShelleyDelegationPart` (external crate). -/
inductive ShelleyDelegationPart where
  | keyHash (h : Nat)
  | scriptHash (h : Nat)
  | pointer (slot txIdx certIdx : Nat)
  | null
deriving DecidableEq

/-- Embeds pallas `ShelleyAddress` (external crate). -/
structure ShelleyAddress where
  network : Network
  payment : ShelleyPaymentPart
  delegation : ShelleyDelegationPart

/-- Embeds `Program<T>` (ast.rs lines 37-40). -/
structure Program (T : Type) where
  version : Nat × Nat × Nat
  term : Term T

/-- Embeds `Program::<DeBruijn>::address` (ast.rs lines 161-171):
serialize to CBOR, hash as a PlutusV2 script, and build a Shelley
address whose payment part is that script hash; serialization and
hashing are external (pallas) and abstracted into `hashOf`. -/
def program_address (hashOf : Program DeBruijn → Nat) (p : Program DeBruijn)
    (network : Network) (delegation : ShelleyDelegationPart) : ShelleyAddress :=
  { network := network
    payment := ShelleyPaymentPart.script (hashOf p)
    delegation := delegation }

/-- Embeds pallas `StakePayload` (external crate). -/
inductive StakePayload where
  | stake (h : Nat)
  | script (h : Nat)

/-- Embeds the delegation-part computation in `Project::address`
(lib.rs lines 302-306). -/
def delegation_part : Option StakePayload → ShelleyDelegationPart
  | none => ShelleyDelegationPart.null
  | some (StakePayload.stake k) => ShelleyDelegationPart.keyHash k
  | some (StakePayload.script s) => ShelleyDelegationPart.scriptHash s

/-- Embeds the validator record selected from the blueprint: its
remaining parameter schemas (whose content is irrelevant here) and its
compiled program. -/
structure Validator where
  parameters : List Nat
  program : Program DeBruijn

/-- Embeds `Project::address` (lib.rs lines 284-328). External pieces
enter as results: `parseStake` is the outcome of parsing the optional
stake-address string (`Address::from_hex` / `from_bech32` plus the
`Address::Stake` check), `selected` is the outcome of reading the
blueprint and selecting exactly one validator via `with_validator`
(blueprint module); `paramErr` builds the `ParameterizedValidator`
error raised when the validator still has parameters. -/
def project_address {R : Type} (hashOf : Program DeBruijn → Nat)
    (paramErr : Nat → R)
    (parseStake : Option (Except R StakePayload))
    (selected : Except R Validator) : Except R ShelleyAddress :=
  match (match parseStake with
         | none => Except.ok none
         | some (Except.error e) => Except.error e
         | some (Except.ok sp) => Except.ok (some sp)) with
  | Except.error e => Except.error e
  | Except.ok sp =>
    match selected with
    | Except.error e => Except.error e
    | Except.ok v =>
      if 0 < v.parameters.length then Except.error (paramErr v.parameters.length)
      else Except.ok (program_address hashOf v.program Network.testnet (delegation_part sp))

/-- C9: whenever `Project::address` succeeds, the returned Shelley
address carries the `Testnet` network tag, its payment part is the
script hash of the selected validator's program, and its delegation
part is determined by the supplied stake address alone (`Null` when no
stake address is given). -/
theorem project_address_always_testnet {R : Type} (hashOf : Program DeBruijn → Nat)
    (paramErr : Nat → R) (parseStake : Option (Except R StakePayload))
    (selected : Except R Validator) (addr : ShelleyAddress)
    (h : project_address hashOf paramErr parseStake selected = Except.ok addr) :
    addr.network = Network.testnet ∧
    (∃ v, selected = Except.ok v ∧ addr.payment = ShelleyPaymentPart.script (hashOf v.program)) ∧
    (parseStake = none → addr.delegation = ShelleyDelegationPart.null) ∧
    (∀ sp, parseStake = some (Except.ok sp) → addr.delegation = delegation_part (some sp)) := by
  unfold project_address at h
  rcases parseStake with _ | pse
  · cases selected with
    | error e => exact Except.noConfusion h
    | ok v =>
      have h3 : (if 0 < v.parameters.length then Except.error (paramErr v.parameters.length)
          else Except.ok (program_address hashOf v.program Network.testnet (delegation_part none)))
          = Except.ok addr := h
      rcases Nat.eq_zero_or_pos v.parameters.length with hz | hp
      · rw [if_neg (by omega)] at h3
        have ha := Except.ok.inj h3
        subst ha
        refine ⟨rfl, ⟨v, rfl, rfl⟩, fun _ => rfl, ?_⟩
        intro sp hsp
        exact Option.noConfusion hsp
      · rw [if_pos hp] at h3
        exact Except.noConfusion h3
  · rcases pse with e | sp0
    · exact Except.noConfusion h
    · cases selected with
      | error e => exact Except.noConfusion h
      | ok v =>
        have h3 : (if 0 < v.parameters.length then Except.error (paramErr v.parameters.length)
            else Except.ok (program_address hashOf v.program Network.testnet (delegation_part (some sp0))))
            = Except.ok addr := h
        rcases Nat.eq_zero_or_pos v.parameters.length with hz | hp
        · rw [if_neg (by omega)] at h3
          have ha := Except.ok.inj h3
          subst ha
          refine ⟨rfl, ⟨v, rfl, rfl⟩, fun hc => Option.noConfusion hc, ?_⟩
          intro sp hsp
          have : Except.ok sp0 = Except.ok sp := Option.some.inj hsp
          have hsp2 := Except.ok.inj this
          rw [← hsp2]
          rfl
        · rw [if_pos hp] at h3
          exact Except.noConfusion h3

/-- Witness for C9: a parameterless validator, no stake address; the
computed address is the testnet script address of the validator's
hash. -/
theorem project_address_always_testnet_witness :
    (ShelleyAddress.mk Network.testnet (ShelleyPaymentPart.script 7)
      ShelleyDelegationPart.null).network = Network.testnet ∧
    (∃ v, (Except.ok (Validator.mk [] (Program.mk (1, 0, 0) Term.error)) : Except Nat Validator)
        = Except.ok v ∧
      (ShelleyAddress.mk Network.testnet (ShelleyPaymentPart.script 7)
        ShelleyDelegationPart.null).payment
        = ShelleyPaymentPart.script ((fun _ => 7 : Program DeBruijn → Nat) v.program)) ∧
    ((none : Option (Except Nat StakePayload)) = none →
      (ShelleyAddress.mk Network.testnet (ShelleyPaymentPart.script 7)
        ShelleyDelegationPart.null).delegation = ShelleyDelegationPart.null) ∧
    (∀ sp, (none : Option (Except Nat StakePayload)) = some (Except.ok sp) →
      (ShelleyAddress.mk Network.testnet (ShelleyPaymentPart.script 7)
        ShelleyDelegationPart.null).delegation = delegation_part (some sp)) :=
  project_address_always_testnet (fun _ => 7) (fun n => n) none
    (Except.ok (Validator.mk [] (Program.mk (1, 0, 0) Term.error)))
    (ShelleyAddress.mk Network.testnet (ShelleyPaymentPart.script 7) ShelleyDelegationPart.null)
    rfl

end Aiken
